import Mathlib

/-!
The driver, the deserializer and the emitter of `tmx2c/main.go`.

A shallow embedding of `OpenXML`, `check`, `write2file`, `ConvertToC` and `main`,
together with the record types of the tile-map data model.

Conventions of the embedding.

* A Go `string` and a Go `[]byte` are both a `GoString`, a list of characters.  Every
  literal of the program is ASCII, where one character is one byte.
* A Go `error` value is an `Option GoError`; `none` is `nil`.
* A function that can panic returns `Except GoError α`; `Except.error e` is the panic
  carrying `e`, which nothing in the program recovers.
* The operating system and the XML decoder are a `World`: which paths can be made
  absolute, which can be opened, what reading them yields and what the decoder stores.
* Library functions whose behaviour is pure text manipulation (`filepath.IsAbs`,
  `filepath.Split`, `strings.Replace`, `bytes.Buffer`) are modelled from the Go standard
  library, `path/filepath` in its Unix flavour (separator `/`, no volume name).
-/

set_option autoImplicit false
set_option maxRecDepth 20000

namespace Tmx2c

/-- A Go string or byte slice. -/
abbrev GoString := List Char

/-- The payload of a Go error value: its message. -/
abbrev GoError := List Char

/-! ## Data model (main.go lines 38-214) -/

structure Tmxframe where
  TileID : GoString
  Duration : GoString

structure Tmxanimation where
  Frames : List Tmxframe

structure Tmxproperty where
  Name : GoString
  Type_ : GoString
  Value : GoString

structure Tmxproperties where
  Properties : List Tmxproperty

structure Tmxelipse where
  NODATAINELIPSE : GoString

structure Tmxpolygon where
  Points : GoString

structure Tmxpolyline where
  Points : GoString

structure Tmxobject where
  Id : GoString
  Name : GoString
  Type_ : GoString
  X : GoString
  Y : GoString
  Width : GoString
  Height : GoString
  Rotation : GoString
  Gid : GoString
  Visible : GoString
  Elipse : List Tmxelipse
  Polygon : List Tmxpolygon
  PolyLine : List Tmxpolyline
  Properties : Tmxproperties

structure Tmxobjectgroup where
  Name : GoString
  Color : GoString
  X : GoString
  Y : GoString
  Width : GoString
  Height : GoString
  Opacity : GoString
  Visible : GoString
  Offsetx : GoString
  Offsety : GoString
  Draworder : GoString
  Objects : List Tmxobject
  Properties : Tmxproperties

mutual
/-- The record `Tmxdata`: `Encoding`, `MapData`, `Tiles`. -/
inductive Tmxdata where
  | mk (Encoding MapData : GoString) (Tiles : List Tmxtile)
/-- The record `Tmximage`: `Format`, `Id`, `Source`, `Trans`, `Width`, `Height`, `Data`. -/
inductive Tmximage where
  | mk (Format Id Source Trans Width Height : GoString) (Data : Tmxdata)
/-- The record `Tmxtile`: `Id`, `Terrain`, `Probability`, `Properties`, `Image`,
`Animation`, `ObjectGroup`. -/
inductive Tmxtile where
  | mk (Id Terrain Probability : GoString) (Properties : Tmxproperties) (Image : Tmximage)
      (Animation : Tmxanimation) (ObjectGroup : List Tmxobjectgroup)
end

structure Tmximagelayer where
  Name : GoString
  Offsetx : GoString
  Offsety : GoString
  X : GoString
  Y : GoString
  Width : GoString
  Height : GoString
  Opacity : GoString
  Visible : GoString
  Image : Tmximage
  Properties : Tmxproperties

structure Tmxlayer where
  Name : GoString
  Width : GoString
  Height : GoString
  Visible : GoString
  Opacity : GoString
  Offsetx : GoString
  Offsety : GoString
  Properties : Tmxproperties
  Data : Tmxdata

structure Tmxtileoffset where
  X : GoString
  Y : GoString

structure Tmxterrain where
  Name : GoString
  Tile : GoString
  Properties : Tmxproperties

structure Tmxterraintypes where
  Terrains : List Tmxterrain

structure Tmxtileset where
  Firstgid : GoString
  Source : GoString
  Name : GoString
  Tilewidth : GoString
  Tileheight : GoString
  Spacing : GoString
  Margin : GoString
  Tilecount : GoString
  Columns : GoString
  Properties : Tmxproperties
  Images : List Tmximage
  TileOffset : Tmxtileoffset
  TerrainTypes : Tmxterraintypes
  Tiles : List Tmxtile

structure Tmxmap where
  Version : GoString
  Orientation : GoString
  RenderOrder : GoString
  Width : GoString
  Height : GoString
  TileWidth : GoString
  TileHeight : GoString
  StaggerAxis : GoString
  StaggerIndex : GoString
  NextObjectID : GoString
  BackGroundColor : GoString
  Properties : Tmxproperties
  TileSets : List Tmxtileset
  Layers : List Tmxlayer
  ObjectGroup : List Tmxobjectgroup
  ImageLayers : List Tmximagelayer

/-- The zero value of `Tmxmap`, what `var tmap Tmxmap` declares: every text field is the
empty string, every slice is nil, and the nested `Properties` record is itself zero. -/
def Tmxmap.zero : Tmxmap :=
  { Version := [], Orientation := [], RenderOrder := [], Width := [], Height := [],
    TileWidth := [], TileHeight := [], StaggerAxis := [], StaggerIndex := [],
    NextObjectID := [], BackGroundColor := [],
    Properties := { Properties := [] },
    TileSets := [], Layers := [], ObjectGroup := [], ImageLayers := [] }

/-! ## Library functions -/

/-- The method `bytes.Buffer.Write`: append `p` to the buffer's contents. -/
def bufferWrite (buffer p : GoString) : GoString := buffer ++ p

/-- The function `os.IsPathSeparator` on Unix. -/
def isPathSeparator (c : Char) : Bool := c == '/'

/-- The function `filepath.IsAbs` on Unix: `strings.HasPrefix(path, "/")`. -/
def filepathIsAbs (path : GoString) : Bool :=
  match path with
  | c :: _ => c == '/'
  | [] => false

/-- The loop of `filepath.Split`:
`i := len(path) - 1; for i >= 0 && !os.IsPathSeparator(path[i]) { i-- }`.
The argument is `i + 1` and so is the result. -/
def splitIndex (path : GoString) : Nat → Nat
  | 0 => 0
  | i + 1 => if isPathSeparator (path.getD i ' ') then i + 1 else splitIndex path i

/-- The function `filepath.Split`: `return path[:i+1], path[i+1:]`. -/
def filepathSplit (path : GoString) : GoString × GoString :=
  let k := splitIndex path path.length
  (path.take k, path.drop k)

/-- The count of `strings.Replace` after one more replacement; `none` is "no limit". -/
def decLimit : Option Nat → Option Nat
  | none => none
  | some k => some (k - 1)

/-- The replacement loop of `strings.Replace` for a non-empty `old`: scan left to right,
replace each occurrence of `old` that does not overlap an earlier one, stop replacing
when the limit is used up.  `skip` counts the characters of a matched `old` still to be
dropped. -/
def replaceFrom (old new : GoString) : Option Nat → Nat → GoString → GoString
  | _, _, [] => []
  | lim, skip + 1, _ :: cs => replaceFrom old new lim skip cs
  | lim, 0, c :: cs =>
    if lim ≠ some 0 ∧ old.isPrefixOf (c :: cs) = true then
      new ++ replaceFrom old new (decLimit lim) (old.length - 1) cs
    else c :: replaceFrom old new lim 0 cs

/-- The replacement loop of `strings.Replace` for the empty `old`: `new` is inserted at
the start and after each character, as long as the limit allows. -/
def insertFrom (new : GoString) : Option Nat → GoString → GoString
  | lim, [] => if lim = some 0 then [] else new
  | lim, c :: cs => if lim = some 0 then c :: cs else new ++ c :: insertFrom new (decLimit lim) cs

/-- The function `strings.Replace(s, old, new, n)`: `s` itself when `old == new` or
`n == 0`, otherwise the first `n` non-overlapping occurrences replaced, all of them
when `n < 0`. -/
def stringsReplace (s old new : GoString) (n : Int) : GoString :=
  if old = new ∨ n = 0 then s
  else
    let lim : Option Nat := if n < 0 then none else some n.toNat
    if old = [] then insertFrom new lim s else replaceFrom old new lim 0 s

/-! ## The environment -/

/-- An opened source document, the result of a successful `os.Open`: `data` are the
bytes `ioutil.ReadAll` returns and `readErr` is the error it returns with them (`none`
when the file was read to its end). -/
structure SrcFile where
  data : GoString
  readErr : Option GoError

/-- The function `ioutil.ReadAll`: the bytes read and the error, if any. -/
def ioutilReadAll (xmlFile : SrcFile) : GoString × Option GoError :=
  (xmlFile.data, xmlFile.readErr)

/-- What the program consults outside itself.
* `filepathAbs` is `filepath.Abs`: the absolute path, or an error.
* `osOpen` is `os.Open`: the opened file, or an error.
* `xmlUnmarshal` is `xml.Unmarshal(b, &tmap)`: the value of `tmap` after the call
  (the decoder stores into the record it is handed) and the error it returns. -/
structure World where
  filepathAbs : GoString → Except GoError GoString
  osOpen : GoString → Except GoError SrcFile
  xmlUnmarshal : GoString → Tmxmap → Tmxmap × Option GoError

/-- The output file `out.h`, as the sequence of byte slices written to it, oldest first.
`os.Create` and `(*os.File).Write` are taken to succeed: the file starts empty and each
write appends its whole argument. -/
structure OutFile where
  writes : List GoString

/-- The bytes of the output file: the written slices one after another. -/
def OutFile.content (f : OutFile) : GoString := f.writes.flatten

/-- The function `os.Create("out.h")`: a fresh, empty file and a nil error. -/
def osCreate : OutFile × Option GoError := ({ writes := [] }, none)

/-- The method `(*os.File).Write`: the file after the write and the error. -/
def OutFile.Write (f : OutFile) (s : GoString) : OutFile × Option GoError :=
  ({ writes := f.writes ++ [s] }, none)

/-! ## The program (main.go lines 216-284) -/

/-- The function `check` (lines 232-237): panic with `e` when `e` is not nil.  The text
`spew.Sdump(e)` returns is discarded by the source. -/
def check (e : Option GoError) : Except GoError Unit :=
  match e with
  | some err => Except.error err
  | none => Except.ok ()

/-- The function `OpenXML` (lines 216-230).  The result pairs the model with the
returned error; `Except.error` is a panic raised by `check`.  The deferred
`xmlFile.Close()` has no part in the result; the errors of `ioutil.ReadAll` and of
`xml.Unmarshal` are dropped as in the source. -/
def OpenXML (w : World) (arg : GoString) : Except GoError (Tmxmap × Option GoError) :=
  let tmap := Tmxmap.zero
  match w.osOpen arg with
  | Except.error err =>
    -- `err != nil`: line 220 runs `check(err)` before line 221 tests `err`
    match check (some err) with
    | Except.error e => Except.error e
    | Except.ok () => Except.ok (tmap, some err)
  | Except.ok xmlFile =>
    match check none with
    | Except.error e => Except.error e
    | Except.ok () =>
      let b := (ioutilReadAll xmlFile).1
      let tmap := (w.xmlUnmarshal b tmap).1
      Except.ok (tmap, none)

/-- The function `write2file` (lines 239-243): the file after the write, or the panic.
The closing `f.Sync()` flushes the file and leaves its content as it is. -/
def write2file (f : OutFile) (s : GoString) : Except GoError OutFile :=
  match check (f.Write s).2 with
  | Except.error e => Except.error e
  | Except.ok () => Except.ok (f.Write s).1

/-- The function `ConvertToC` (lines 246-251). -/
def ConvertToC (tmap : Tmxmap) (filename : GoString) : GoString :=
  let buffer : GoString := []
  let buffer := bufferWrite buffer "#define ".toList
  let buffer := bufferWrite buffer filename
  let buffer := bufferWrite buffer "_Version ".toList
  let buffer := bufferWrite buffer tmap.Version
  let buffer := bufferWrite buffer "\n#define ".toList
  let buffer := bufferWrite buffer filename
  let buffer := bufferWrite buffer "_Orientation ".toList
  let buffer := bufferWrite buffer tmap.Orientation
  buffer

/-- Lines 262-270 of `main`: the path the rest of the iteration works on, `none` when
the iteration ends at `continue`. -/
def resolveArg (w : World) (arg : GoString) : Option GoString :=
  if filepathIsAbs arg = false then
    match w.filepathAbs arg with
    | Except.error _ => none
    | Except.ok newpath => some newpath
  else some arg

/-- Lines 275-276 of `main`: the identifier derived from the path `arg`. -/
def deriveIdentifier (arg : GoString) : GoString :=
  let filename := (filepathSplit arg).2
  stringsReplace filename ".".toList "_".toList (-1)

/-- Lines 277-281 of `main`: the bytes handed to `write2file`. -/
def buildBlock (tmap : Tmxmap) (filename : GoString) : GoString :=
  let buffer : GoString := []
  let buffer := bufferWrite buffer "#ifdef ".toList
  let buffer := bufferWrite buffer filename
  let buffer := bufferWrite buffer "_MAP\n".toList
  let buffer := bufferWrite buffer (ConvertToC tmap filename)
  let buffer := bufferWrite buffer "\n#endif".toList
  buffer

/-- The loop of `main` (lines 260-284) over the remaining arguments, from the output
file `f`.  The result is the output file when the loop stops and the panic that stopped
it, if one did. -/
def mainLoop (w : World) : OutFile → List GoString → OutFile × Option GoError
  | f, [] => (f, none)
  | f, arg :: rest =>
    match resolveArg w arg with
    | none => mainLoop w f rest
    | some arg =>
      match OpenXML w arg with
      | Except.error e => (f, some e)
      | Except.ok (tmap, err2) =>
        if err2 = none then
          match write2file f (buildBlock tmap (deriveIdentifier arg)) with
          | Except.error e => (f, some e)
          | Except.ok f => mainLoop w f rest
        else mainLoop w f rest

/-- The function `main` (lines 253-284) on the arguments `os.Args[1:]`. -/
def main (w : World) (arguments : List GoString) : OutFile × Option GoError :=
  match check osCreate.2 with
  | Except.error e => (osCreate.1, some e)
  | Except.ok () => mainLoop w osCreate.1 arguments

/-! ## Specification vocabulary -/

/-- What the derivation does to one character: `.` becomes `_`, anything else stays. -/
def dotToUnderscore (c : Char) : Char := if c = '.' then '_' else c

/-- Two characters the derivation cannot tell apart: the same character, or each of
them one of `.` and `_`. -/
def sameUpToDot (a b : Char) : Bool :=
  a == b || ((a == '.' || a == '_') && (b == '.' || b == '_'))

/-- Two texts of the same length that hold, at every position, characters the derivation
cannot tell apart. -/
def sameUpToDots : GoString → GoString → Bool
  | [], [] => true
  | a :: as, b :: bs => sameUpToDot a b && sameUpToDots as bs
  | _, _ => false

/-- Whether lines 262-270 of `main` give the argument up: it is not absolute and
`filepath.Abs` returns an error for it. -/
def resolutionFails (w : World) (arg : GoString) : Bool :=
  if filepathIsAbs arg = false then
    match w.filepathAbs arg with
    | Except.error _ => true
    | Except.ok _ => false
  else false

/-- The path an argument is processed under: itself when absolute, else what
`filepath.Abs` makes of it (the empty path when that fails). -/
def ownPath (w : World) (arg : GoString) : GoString :=
  if filepathIsAbs arg = false then
    match w.filepathAbs arg with
    | Except.error _ => []
    | Except.ok newpath => newpath
  else arg

/-- The model the decoder produces from the document behind an argument: the zero model
after `xml.Unmarshal` has stored into it (the zero model when the document cannot be
opened). -/
def ownMap (w : World) (arg : GoString) : Tmxmap :=
  match w.osOpen (ownPath w arg) with
  | Except.error _ => Tmxmap.zero
  | Except.ok xmlFile => (w.xmlUnmarshal xmlFile.data Tmxmap.zero).1

/-- The four-line text of the block for the identifier `id` with the values `version`
and `orientation`. -/
def blockText (id version orientation : GoString) : GoString :=
  "#ifdef ".toList ++ id ++ "_MAP\n#define ".toList ++ id ++ "_Version ".toList ++ version
    ++ "\n#define ".toList ++ id ++ "_Orientation ".toList ++ orientation
    ++ "\n#endif".toList

/-! ## A sample environment

Six paths under the directory `/m`: four well-formed maps, one document cut off after
its start tag, one file that is no XML at all, and one directory.  Nothing else exists. -/

/-- The well-formed map document with the given attribute values. -/
def mapDoc (version orientation : GoString) : GoString :=
  "<map version=\"".toList ++ version ++ "\" orientation=\"".toList ++ orientation
    ++ "\"></map>".toList

/-- The same document without its end tag. -/
def cutDoc (version orientation : GoString) : GoString :=
  "<map version=\"".toList ++ version ++ "\" orientation=\"".toList ++ orientation
    ++ "\">".toList

/-- The files of the sample environment: path, version, orientation. -/
def sampleMaps : List (GoString × GoString × GoString) :=
  [("/m/a.tmx".toList, "1.0".toList, "orthogonal".toList),
   ("/m/b.tmx".toList, "1.2".toList, "isometric".toList),
   ("/m/good.tmx".toList, "1.0".toList, "orthogonal".toList),
   ("/m/good2.tmx".toList, "1.1".toList, "hexagonal".toList)]

/-- The function `os.Open` of the sample environment.  Opening a directory succeeds and
reading it fails; a path that is not listed does not exist. -/
def sampleOpen (path : GoString) : Except GoError SrcFile :=
  match sampleMaps.find? (fun e => e.1 == path) with
  | some e => Except.ok { data := mapDoc e.2.1 e.2.2, readErr := none }
  | none =>
    if path = "/m/cut.tmx".toList then
      Except.ok { data := cutDoc "1.0".toList "orthogonal".toList, readErr := none }
    else if path = "/m/junk.tmx".toList then
      Except.ok { data := "no markup here".toList, readErr := none }
    else if path = "/m/dir".toList then
      Except.ok { data := [], readErr := some "read /m/dir: is a directory".toList }
    else Except.error ("open ".toList ++ path ++ ": no such file or directory".toList)

/-- The function `xml.Unmarshal` of the sample environment, on the documents above.
The decoder of `encoding/xml` stores the attributes of the root element into the record
as soon as it has read the start tag and only then reads on, so a document cut off after
the start tag leaves `Version` and `Orientation` set and returns a syntax error; text
with no element in it leaves the record as it was and returns `EOF`. -/
def sampleUnmarshal (b : GoString) (tmap : Tmxmap) : Tmxmap × Option GoError :=
  match sampleMaps.find? (fun e => mapDoc e.2.1 e.2.2 == b) with
  | some e => ({ tmap with Version := e.2.1, Orientation := e.2.2 }, none)
  | none =>
    if b = cutDoc "1.0".toList "orthogonal".toList then
      ({ tmap with Version := "1.0".toList, Orientation := "orthogonal".toList },
        some "XML syntax error on line 1: unexpected EOF".toList)
    else (tmap, some "EOF".toList)

/-- The sample environment with `/m` as working directory: a plain relative name is
made absolute by putting `/m/` before it. -/
def sampleWorld : World :=
  { filepathAbs := fun path => Except.ok ("/m/".toList ++ path)
    osOpen := sampleOpen
    xmlUnmarshal := sampleUnmarshal }

/-- The sample environment when the working directory has been removed: `filepath.Abs`
cannot make any relative path absolute. -/
def lostDirWorld : World :=
  { filepathAbs := fun _ => Except.error "getwd: no such file or directory".toList
    osOpen := sampleOpen
    xmlUnmarshal := sampleUnmarshal }

/-! ## Library lemmas -/

theorem replaceFrom_dot (s : GoString) :
    replaceFrom ['.'] ['_'] none 0 s = s.map dotToUnderscore := by
  induction s with
  | nil => rfl
  | cons c cs ih =>
    by_cases h : c = '.'
    · subst h
      simp [replaceFrom, decLimit, dotToUnderscore, ih]
    · have h2 : ¬ '.' = c := fun e => h e.symm
      simp [replaceFrom, dotToUnderscore, h, h2, ih]

theorem stringsReplace_dot (s : GoString) :
    stringsReplace s ".".toList "_".toList (-1) = s.map dotToUnderscore := by
  have h1 : ".".toList = ['.'] := rfl
  have h2 : "_".toList = ['_'] := rfl
  rw [h1, h2]
  unfold stringsReplace
  rw [if_neg (by decide)]
  simp [replaceFrom_dot]

theorem splitIndex_le (path : GoString) (n : Nat) : splitIndex path n ≤ n := by
  induction n with
  | zero => simp [splitIndex]
  | succ i ih =>
    unfold splitIndex
    split
    · exact Nat.le_refl _
    · exact Nat.le_succ_of_le ih

/-- No separator stands between the index the loop stops at and where it started. -/
theorem splitIndex_after (path : GoString) (n j : Nat) (h1 : splitIndex path n ≤ j)
    (h2 : j < n) : isPathSeparator (path.getD j ' ') = false := by
  induction n with
  | zero => omega
  | succ i ih =>
    unfold splitIndex at h1
    split at h1
    · omega
    · rename_i hsep
      by_cases hj : j = i
      · subst hj; simpa using hsep
      · exact ih h1 (by omega)

/-- The loop stops at the start of the path or just after a separator. -/
theorem splitIndex_before (path : GoString) (n : Nat) :
    splitIndex path n = 0 ∨
      isPathSeparator (path.getD (splitIndex path n - 1) ' ') = true := by
  induction n with
  | zero => left; rfl
  | succ i ih =>
    unfold splitIndex
    split
    · rename_i hsep; right; simpa using hsep
    · exact ih

/-- The file part `filepath.Split` returns holds no separator. -/
theorem filepathSplit_file_no_sep (path : GoString) :
    ∀ c ∈ (filepathSplit path).2, c ≠ '/' := by
  intro c hc
  simp only [filepathSplit] at hc
  obtain ⟨j, hj, rfl⟩ := List.mem_iff_getElem.mp hc
  rw [List.length_drop] at hj
  have hsep := splitIndex_after path path.length (splitIndex path path.length + j)
    (Nat.le_add_right _ _) (by omega)
  rw [List.getElem_drop]
  rw [List.getD_eq_getElem path ' ' (by omega)] at hsep
  intro heq
  rw [heq] at hsep
  simp [isPathSeparator] at hsep

/-- The directory part `filepath.Split` returns is empty or ends with a separator. -/
theorem filepathSplit_dir_ends (path : GoString) :
    (filepathSplit path).1 = [] ∨ ∃ d, (filepathSplit path).1 = d ++ ['/'] := by
  simp only [filepathSplit]
  rcases splitIndex_before path path.length with h0 | hsep
  · left; rw [h0]; rfl
  · by_cases hk : splitIndex path path.length = 0
    · left; rw [hk]; rfl
    · right
      have hle := splitIndex_le path path.length
      obtain ⟨k, hk2⟩ : ∃ k, splitIndex path path.length = k + 1 := ⟨_, (Nat.succ_pred hk).symm⟩
      rw [hk2] at hsep ⊢
      have hlt : k < path.length := by omega
      simp only [Nat.add_sub_cancel] at hsep
      rw [List.getD_eq_getElem path ' ' hlt] at hsep
      refine ⟨path.take k, ?_⟩
      rw [List.take_succ, List.getElem?_eq_getElem hlt]
      simp [isPathSeparator] at hsep
      simp [hsep]

/-- A split of a path after a separator (or at its start) with no separator behind it
is the split the loop finds. -/
theorem splitIndex_unique (a b : GoString) (ha : a = [] ∨ ∃ d, a = d ++ ['/'])
    (hb : ∀ c ∈ b, c ≠ '/') (n : Nat) (hn : n ≤ b.length) :
    splitIndex (a ++ b) (a.length + n) = a.length := by
  induction n with
  | zero =>
    rcases ha with rfl | ⟨d, rfl⟩
    · rfl
    · have hget : (d ++ ['/'] ++ b).getD d.length ' ' = '/' := by
        rw [List.append_assoc, List.getD_eq_getElem _ _ (by simp)]
        rw [List.getElem_append_right (Nat.le_refl _)]
        simp
      show splitIndex (d ++ ['/'] ++ b) ((d ++ ['/']).length + 0) = (d ++ ['/']).length
      rw [List.length_append, List.length_singleton, Nat.add_zero]
      unfold splitIndex
      rw [hget]
      simp [isPathSeparator]
  | succ i ih =>
    have hi : i < b.length := by omega
    have hget : (a ++ b).getD (a.length + i) ' ' = b[i] := by
      rw [List.getD_eq_getElem _ _ (by simp; omega)]
      rw [List.getElem_append_right (by omega)]
      simp
    have hne : b[i] ≠ '/' := hb _ (List.getElem_mem hi)
    show splitIndex (a ++ b) (a.length + i + 1) = a.length
    unfold splitIndex
    rw [hget]
    simp [isPathSeparator, hne]
    exact ih (by omega)

theorem filepathSplit_unique (a b : GoString) (ha : a = [] ∨ ∃ d, a = d ++ ['/'])
    (hb : ∀ c ∈ b, c ≠ '/') : filepathSplit (a ++ b) = (a, b) := by
  have h := splitIndex_unique a b ha hb b.length (Nat.le_refl _)
  simp only [filepathSplit, List.length_append, h]
  simp

theorem deriveIdentifier_eq_map (path : GoString) :
    deriveIdentifier path = ((filepathSplit path).2).map dotToUnderscore := by
  simp only [deriveIdentifier, stringsReplace_dot]

theorem dotToUnderscore_ne_dot (c : Char) : dotToUnderscore c ≠ '.' := by
  unfold dotToUnderscore
  split
  · decide
  · assumption

theorem dotToUnderscore_eq_iff (a b : Char) :
    dotToUnderscore a = dotToUnderscore b ↔ sameUpToDot a b = true := by
  unfold dotToUnderscore sameUpToDot
  by_cases h1 : a = '.'
  · by_cases h2 : b = '.'
    · simp [h1, h2]
    · by_cases h3 : b = '_'
      · simp [h1, h3]
      · have h4 : ¬ '_' = b := fun e => h3 e.symm
        have h5 : ¬ '.' = b := fun e => h2 e.symm
        simp [h1, h2, h3, h4, h5]
  · by_cases h2 : b = '.'
    · by_cases h3 : a = '_'
      · simp [h2, h3]
      · simp [h1, h2, h3]
    · simp only [if_neg h1, if_neg h2]
      constructor
      · intro e; simp [e]
      · intro e
        simp only [Bool.or_eq_true, Bool.and_eq_true, beq_iff_eq] at e
        rcases e with e | ⟨e1, e2⟩
        · exact e
        · rcases e1 with e1 | e1
          · exact absurd e1 h1
          · rcases e2 with e2 | e2
            · exact absurd e2 h2
            · rw [e1, e2]

theorem map_dotToUnderscore_eq_iff (f g : GoString) :
    f.map dotToUnderscore = g.map dotToUnderscore ↔ sameUpToDots f g = true := by
  induction f generalizing g with
  | nil =>
    cases g with
    | nil => simp [sameUpToDots]
    | cons b bs => simp [sameUpToDots]
  | cons a as ih =>
    cases g with
    | nil => simp [sameUpToDots]
    | cons b bs =>
      simp only [List.map_cons, List.cons.injEq, sameUpToDots, Bool.and_eq_true]
      rw [dotToUnderscore_eq_iff a b, ih bs]

theorem sameUpToDots_refl (f : GoString) : sameUpToDots f f = true :=
  (map_dotToUnderscore_eq_iff f f).mp rfl

/-- The positions of two texts that `sameUpToDots` compares: it holds exactly when the
lengths agree and the characters at every position cannot be told apart. -/
theorem sameUpToDots_iff_positions (f g : GoString) :
    sameUpToDots f g = true
      ↔ f.length = g.length
        ∧ ∀ i, i < f.length → sameUpToDot (f.getD i ' ') (g.getD i ' ') = true := by
  induction f generalizing g with
  | nil =>
    cases g with
    | nil => simp [sameUpToDots]
    | cons b bs => simp [sameUpToDots]
  | cons a as ih =>
    cases g with
    | nil => simp [sameUpToDots]
    | cons b bs =>
      simp only [sameUpToDots, Bool.and_eq_true, List.length_cons, Nat.add_right_cancel_iff]
      rw [ih bs]
      constructor
      · rintro ⟨h0, hl, hi⟩
        refine ⟨hl, ?_⟩
        intro i hlt
        cases i with
        | zero => simpa using h0
        | succ j => simpa using hi j (by omega)
      · rintro ⟨hl, hi⟩
        refine ⟨by simpa using hi 0 (by omega), hl, ?_⟩
        intro j hj
        simpa using hi (j + 1) (by omega)

theorem ConvertToC_text (m : Tmxmap) (id : GoString) :
    ConvertToC m id = "#define ".toList ++ id ++ "_Version ".toList ++ m.Version
      ++ "\n#define ".toList ++ id ++ "_Orientation ".toList ++ m.Orientation := by
  simp [ConvertToC, bufferWrite]

/-! ## Lemmas on the program -/

theorem OpenXML_of_open_ok (w : World) (arg : GoString) (xmlFile : SrcFile)
    (h : w.osOpen arg = Except.ok xmlFile) :
    OpenXML w arg = Except.ok ((w.xmlUnmarshal xmlFile.data Tmxmap.zero).1, none) := by
  simp [OpenXML, h, check, ioutilReadAll]

theorem OpenXML_of_open_error (w : World) (arg : GoString) (err : GoError)
    (h : w.osOpen arg = Except.error err) : OpenXML w arg = Except.error err := by
  simp [OpenXML, h, check]

theorem write2file_eq (f : OutFile) (s : GoString) :
    write2file f s = Except.ok { writes := f.writes ++ [s] } := by
  simp [write2file, OutFile.Write, check]

theorem resolveArg_eq_none (w : World) (arg : GoString) :
    resolveArg w arg = none ↔ resolutionFails w arg = true := by
  unfold resolveArg resolutionFails
  split
  · split <;> simp
  · simp

theorem resolveArg_eq_some (w : World) (arg p : GoString) (h : resolveArg w arg = some p) :
    ownPath w arg = p := by
  unfold resolveArg at h
  unfold ownPath
  split at h
  · rename_i hab
    rw [if_pos hab]
    split at h
    · exact absurd h (by simp)
    · exact Option.some.inj h
  · rename_i hab
    rw [if_neg hab]
    exact Option.some.inj h

theorem mainLoop_skip (w : World) (f : OutFile) (arg : GoString) (rest : List GoString)
    (h : resolveArg w arg = none) : mainLoop w f (arg :: rest) = mainLoop w f rest := by
  simp [mainLoop, h]

theorem mainLoop_write (w : World) (f : OutFile) (arg p : GoString) (rest : List GoString)
    (xmlFile : SrcFile) (h : resolveArg w arg = some p)
    (ho : w.osOpen p = Except.ok xmlFile) :
    mainLoop w f (arg :: rest)
      = mainLoop w
          { writes := f.writes ++ [buildBlock (ownMap w arg) (deriveIdentifier (ownPath w arg))] }
          rest := by
  have hp := resolveArg_eq_some w arg p h
  have hm : ownMap w arg = (w.xmlUnmarshal xmlFile.data Tmxmap.zero).1 := by
    simp [ownMap, hp, ho]
  simp [mainLoop, h, OpenXML_of_open_ok w p xmlFile ho, write2file_eq, hp, hm]

theorem mainLoop_panic (w : World) (f : OutFile) (arg p : GoString) (rest : List GoString)
    (err : GoError) (h : resolveArg w arg = some p) (ho : w.osOpen p = Except.error err) :
    mainLoop w f (arg :: rest) = (f, some err) := by
  simp [mainLoop, h, OpenXML_of_open_error w p err ho]

theorem main_eq_mainLoop (w : World) (arguments : List GoString) :
    main w arguments = mainLoop w { writes := [] } arguments := by
  simp [main, osCreate, check]

theorem mainLoop_all_ok (w : World) (arguments : List GoString)
    (h : ∀ a ∈ arguments, ∃ p xmlFile, resolveArg w a = some p ∧ w.osOpen p = Except.ok xmlFile)
    (f : OutFile) :
    mainLoop w f arguments
      = ({ writes := f.writes ++ arguments.map
            (fun a => buildBlock (ownMap w a) (deriveIdentifier (ownPath w a))) }, none) := by
  induction arguments generalizing f with
  | nil => simp [mainLoop]
  | cons a rest ih =>
    obtain ⟨p, xmlFile, hr, ho⟩ := h a (List.mem_cons_self a rest)
    rw [mainLoop_write w f a p rest xmlFile hr ho]
    rw [ih (fun b hb => h b (List.mem_cons_of_mem a hb))]
    simp

theorem mainLoop_filter (w : World) (arguments : List GoString) (f : OutFile) :
    mainLoop w f arguments
      = mainLoop w f (arguments.filter (fun a => !resolutionFails w a)) := by
  induction arguments generalizing f with
  | nil => rfl
  | cons a rest ih =>
    by_cases hf : resolutionFails w a = true
    · rw [mainLoop_skip w f a rest ((resolveArg_eq_none w a).mpr hf), ih f]
      simp [List.filter, hf]
    · have hne : resolveArg w a ≠ none := fun e => hf ((resolveArg_eq_none w a).mp e)
      have hfil : (a :: rest).filter (fun a => !resolutionFails w a)
          = a :: rest.filter (fun a => !resolutionFails w a) := by
        simp [List.filter, hf]
      rw [hfil]
      cases hr : resolveArg w a with
      | none => exact absurd hr hne
      | some p =>
        cases ho : w.osOpen p with
        | error err =>
          rw [mainLoop_panic w f a p _ err hr ho, mainLoop_panic w f a p _ err hr ho]
        | ok xmlFile =>
          rw [mainLoop_write w f a p _ xmlFile hr ho, mainLoop_write w f a p _ xmlFile hr ho]
          exact ih _

theorem buildBlock_opens (m : Tmxmap) (id : GoString) :
    ∃ y, buildBlock m id = "#ifdef ".toList ++ y :=
  ⟨id ++ "_MAP\n".toList ++ ConvertToC m id ++ "\n#endif".toList, by
    simp only [buildBlock, bufferWrite, List.nil_append, List.append_assoc]⟩

theorem buildBlock_closes (m : Tmxmap) (id : GoString) :
    ∃ x, buildBlock m id = x ++ "#endif".toList :=
  ⟨"#ifdef ".toList ++ id ++ "_MAP\n".toList ++ ConvertToC m id ++ ['\n'], by
    have h : "\n#endif".toList = ['\n'] ++ "#endif".toList := by decide
    simp only [buildBlock, bufferWrite, h, List.nil_append, List.append_assoc]⟩

theorem mainLoop_writes_blocks (w : World) (arguments : List GoString) (f : OutFile)
    (hf : ∀ b ∈ f.writes, ∃ m id, b = buildBlock m id) :
    ∀ b ∈ (mainLoop w f arguments).1.writes, ∃ m id, b = buildBlock m id := by
  induction arguments generalizing f with
  | nil => simpa [mainLoop] using hf
  | cons a rest ih =>
    cases hr : resolveArg w a with
    | none => rw [mainLoop_skip w f a rest hr]; exact ih f hf
    | some p =>
      cases ho : w.osOpen p with
      | error err => rw [mainLoop_panic w f a p rest err hr ho]; exact hf
      | ok xmlFile =>
        rw [mainLoop_write w f a p rest xmlFile hr ho]
        apply ih
        intro b hb
        rcases List.mem_append.mp hb with h1 | h1
        · exact hf b h1
        · exact ⟨_, _, List.mem_singleton.mp h1⟩

theorem flatten_junction (bs : List GoString) (hb : ∀ b ∈ bs, ∃ m id, b = buildBlock m id)
    (i : Nat) (h : i + 1 < bs.length) :
    ∃ pre post, bs.flatten = pre ++ "#endif#ifdef ".toList ++ post
      ∧ pre ++ "#endif".toList = (bs.take (i + 1)).flatten
      ∧ "#ifdef ".toList ++ post = (bs.drop (i + 1)).flatten := by
  have hi : i < bs.length := by omega
  obtain ⟨m1, id1, h1⟩ := hb bs[i] (List.getElem_mem hi)
  obtain ⟨m2, id2, h2⟩ := hb bs[i + 1] (List.getElem_mem h)
  obtain ⟨x, hx⟩ := buildBlock_closes m1 id1
  obtain ⟨y, hy⟩ := buildBlock_opens m2 id2
  have htake : (bs.take (i + 1)).flatten = (bs.take i).flatten ++ x ++ "#endif".toList := by
    rw [List.take_succ, List.getElem?_eq_getElem hi, h1, hx]
    simp
  have hdrop : (bs.drop (i + 1)).flatten
      = "#ifdef ".toList ++ (y ++ (bs.drop (i + 2)).flatten) := by
    rw [List.drop_eq_getElem_cons h, h2, hy]
    simp
  have hsplit : bs.flatten = (bs.take (i + 1)).flatten ++ (bs.drop (i + 1)).flatten := by
    rw [← List.flatten_append, List.take_append_drop]
  have hj : "#endif#ifdef ".toList = "#endif".toList ++ "#ifdef ".toList := by decide
  refine ⟨(bs.take i).flatten ++ x, y ++ (bs.drop (i + 2)).flatten, ?_, htake.symm,
    hdrop.symm⟩
  rw [hsplit, htake, hdrop, hj]
  simp only [List.append_assoc]

theorem flatten_last (bs : List GoString) (hb : ∀ b ∈ bs, ∃ m id, b = buildBlock m id)
    (hne : bs ≠ []) : bs.flatten.getLast? = some 'f' := by
  rcases List.eq_nil_or_concat bs with h0 | ⟨L, b, hL⟩
  · exact absurd h0 hne
  · rw [List.concat_eq_append] at hL
    obtain ⟨m, id, hm⟩ := hb b (by rw [hL]; simp)
    obtain ⟨x, hx⟩ := buildBlock_closes m id
    have h : "#endif".toList = "#endi".toList ++ ['f'] := by decide
    rw [hL, List.flatten_append, hm, hx, h]
    simp only [List.flatten_cons, List.flatten_nil, List.append_nil]
    rw [← List.append_assoc, ← List.append_assoc, List.getLast?_concat]

theorem flatten_first (bs : List GoString) (hb : ∀ b ∈ bs, ∃ m id, b = buildBlock m id)
    (hne : bs ≠ []) : "#ifdef ".toList <+: bs.flatten := by
  cases bs with
  | nil => exact absurd rfl hne
  | cons b rest =>
    obtain ⟨m, id, hm⟩ := hb b (List.mem_cons_self b rest)
    obtain ⟨y, hy⟩ := buildBlock_opens m id
    exact ⟨y ++ rest.flatten, by rw [List.flatten_cons, hm, hy, List.append_assoc]⟩

theorem buildBlock_eq_blockText (m : Tmxmap) (id : GoString) :
    buildBlock m id = blockText id m.Version m.Orientation := by
  have hA : "_MAP\n#define ".toList = "_MAP\n".toList ++ "#define ".toList := by decide
  simp only [buildBlock, bufferWrite, blockText, ConvertToC_text, hA, List.nil_append,
    List.append_assoc]

/-! ## The claims -/

/-- C1: the block the driver builds for a map `m` and an identifier `id`, the bytes it
hands to `write2file`, is exactly the four lines `#ifdef <id>_MAP`,
`#define <id>_Version <m.Version>`, `#define <id>_Orientation <m.Orientation>`, `#endif`
with no line break after `#endif`; it begins with `#ifdef <id>_MAP`, ends with `#endif`,
and a map whose `Version` is empty still gets the line `#define <id>_Version ` with
nothing after the blank. -/
theorem buildBlock_exact (m : Tmxmap) (id : GoString) :
    buildBlock m id
        = "#ifdef ".toList ++ id ++ "_MAP\n#define ".toList ++ id ++ "_Version ".toList
          ++ m.Version ++ "\n#define ".toList ++ id ++ "_Orientation ".toList
          ++ m.Orientation ++ "\n#endif".toList
      ∧ ("#ifdef ".toList ++ id ++ "_MAP\n".toList) <+: buildBlock m id
      ∧ "\n#endif".toList <:+ buildBlock m id
      ∧ buildBlock { m with Version := [] } id
        = "#ifdef ".toList ++ id ++ "_MAP\n#define ".toList ++ id
          ++ "_Version \n#define ".toList ++ id ++ "_Orientation ".toList
          ++ m.Orientation ++ "\n#endif".toList := by
  have hA : "_MAP\n#define ".toList = "_MAP\n".toList ++ "#define ".toList := by decide
  have hB : "_Version \n#define ".toList = "_Version ".toList ++ "\n#define ".toList := by
    decide
  refine ⟨?_, ?_, ?_, ?_⟩
  · simp only [buildBlock, bufferWrite, ConvertToC_text, hA, List.nil_append,
      List.append_assoc]
  · refine ⟨ConvertToC m id ++ "\n#endif".toList, ?_⟩
    simp only [buildBlock, bufferWrite, List.nil_append, List.append_assoc]
  · refine ⟨"#ifdef ".toList ++ id ++ "_MAP\n".toList ++ ConvertToC m id, ?_⟩
    simp only [buildBlock, bufferWrite, List.nil_append, List.append_assoc]
  · simp only [buildBlock, bufferWrite, ConvertToC_text, hA, hB, List.nil_append,
      List.append_assoc, List.append_nil]

/-- C2: the identifier derived from a path `p` is the text after the last `/` of `p`
(all of `p` when it has none) with every `.` turned into `_` and nothing else changed;
it holds no `.`, is as long as that file name, and is the same whatever directory stands
before the file name, dots in it included. -/
theorem deriveIdentifier_spec (p : GoString) :
    (∃ dir file, p = dir ++ file ∧ (dir = [] ∨ ∃ d, dir = d ++ ['/'])
        ∧ (∀ c ∈ file, c ≠ '/')
        ∧ deriveIdentifier p = file.map dotToUnderscore
        ∧ (deriveIdentifier p).length = file.length)
      ∧ '.' ∉ deriveIdentifier p
      ∧ (∀ dir file : GoString, (∀ c ∈ file, c ≠ '/') →
          deriveIdentifier (dir ++ '/' :: file) = file.map dotToUnderscore
            ∧ deriveIdentifier (dir ++ '/' :: file) = deriveIdentifier file)
      ∧ deriveIdentifier "level1.tmx".toList = "level1_tmx".toList
      ∧ deriveIdentifier "a.b.c.tmx".toList = "a_b_c_tmx".toList
      ∧ deriveIdentifier "/maps.v2/a.b.c.tmx".toList = "a_b_c_tmx".toList := by
  refine ⟨⟨(filepathSplit p).1, (filepathSplit p).2, ?_, filepathSplit_dir_ends p,
    filepathSplit_file_no_sep p, deriveIdentifier_eq_map p, ?_⟩, ?_, ?_, ?_, ?_, ?_⟩
  · simp [filepathSplit]
  · rw [deriveIdentifier_eq_map, List.length_map]
  · rw [deriveIdentifier_eq_map]
    intro h
    obtain ⟨c, _, hc⟩ := List.mem_map.mp h
    exact dotToUnderscore_ne_dot c hc
  · intro dir file hfile
    have h1 : filepathSplit ((dir ++ ['/']) ++ file) = (dir ++ ['/'], file) :=
      filepathSplit_unique (dir ++ ['/']) file (Or.inr ⟨dir, rfl⟩) hfile
    have h2 : filepathSplit ([] ++ file) = ([], file) :=
      filepathSplit_unique [] file (Or.inl rfl) hfile
    have e : dir ++ '/' :: file = (dir ++ ['/']) ++ file := by simp
    rw [e, deriveIdentifier_eq_map, h1, deriveIdentifier_eq_map file]
    rw [List.nil_append] at h2
    rw [h2]
    exact ⟨rfl, rfl⟩
  · decide
  · decide
  · decide

/-- C7 fails as stated: the text `ConvertToC` returns for the zero map and the
identifier `a` neither opens with `#ifdef a_MAP` nor closes with `#endif`. -/
theorem ConvertToC_has_no_guard :
    ¬ ("#ifdef a_MAP".toList <+: ConvertToC Tmxmap.zero "a".toList)
      ∧ ¬ ("#endif".toList <:+ ConvertToC Tmxmap.zero "a".toList)
      ∧ ConvertToC Tmxmap.zero "a".toList
        = "#define a_Version \n#define a_Orientation ".toList := by
  decide

/-- C7 amended: `ConvertToC m id` is the two `#define` lines alone,
`#define <id>_Version <m.Version>` and `#define <id>_Orientation <m.Orientation>`; it
opens with `#define `, and the guard `#ifdef <id>_MAP` before it and the `#endif` after
it are put there by the driver. -/
theorem ConvertToC_defines_only (m : Tmxmap) (id : GoString) :
    ConvertToC m id = "#define ".toList ++ id ++ "_Version ".toList ++ m.Version
        ++ "\n#define ".toList ++ id ++ "_Orientation ".toList ++ m.Orientation
      ∧ "#define ".toList <+: ConvertToC m id
      ∧ buildBlock m id
        = "#ifdef ".toList ++ id ++ "_MAP\n".toList ++ ConvertToC m id ++ "\n#endif".toList := by
  refine ⟨ConvertToC_text m id, ?_, ?_⟩
  · rw [ConvertToC_text]
    exact ⟨id ++ "_Version ".toList ++ m.Version ++ "\n#define ".toList ++ id
      ++ "_Orientation ".toList ++ m.Orientation, by simp only [List.append_assoc]⟩
  · simp only [buildBlock, bufferWrite, List.nil_append, List.append_assoc]

/-- C8 fails as stated: the paths `/m/a.tmx` and `/m/a_tmx` have different file names
and the same derived identifier `a_tmx`. -/
theorem deriveIdentifier_collision :
    (filepathSplit "/m/a.tmx".toList).2 ≠ (filepathSplit "/m/a_tmx".toList).2
      ∧ deriveIdentifier "/m/a.tmx".toList = deriveIdentifier "/m/a_tmx".toList
      ∧ deriveIdentifier "/m/a.tmx".toList = "a_tmx".toList := by
  decide

/-- C8 amended: two paths get the same derived identifier exactly when their file names
have the same length and hold, at every position, the same character or each one of `.`
and `_`.  So equal file names give equal identifiers, and distinct file names give
distinct identifiers unless they differ only at positions where one holds `.` and the
other `_`: `level_1.tmx` and `level_2.tmx` get distinct identifiers, `a.tmx` and `a_tmx`
the same one. -/
theorem deriveIdentifier_eq_iff (p q : GoString) :
    (deriveIdentifier p = deriveIdentifier q
        ↔ sameUpToDots (filepathSplit p).2 (filepathSplit q).2 = true)
      ∧ (deriveIdentifier p = deriveIdentifier q
        ↔ (filepathSplit p).2.length = (filepathSplit q).2.length
          ∧ ∀ i, i < (filepathSplit p).2.length →
              sameUpToDot ((filepathSplit p).2.getD i ' ') ((filepathSplit q).2.getD i ' ')
                = true)
      ∧ (sameUpToDots (filepathSplit p).2 (filepathSplit q).2 = false →
          deriveIdentifier p ≠ deriveIdentifier q)
      ∧ ((filepathSplit p).2 = (filepathSplit q).2 →
          deriveIdentifier p = deriveIdentifier q)
      ∧ deriveIdentifier "/m/level_1.tmx".toList ≠ deriveIdentifier "/m/level_2.tmx".toList
      ∧ sameUpToDots "a.tmx".toList "a_tmx".toList = true
      ∧ deriveIdentifier "/m/a.tmx".toList = deriveIdentifier "/n/a_tmx".toList := by
  have key : deriveIdentifier p = deriveIdentifier q
      ↔ sameUpToDots (filepathSplit p).2 (filepathSplit q).2 = true := by
    rw [deriveIdentifier_eq_map, deriveIdentifier_eq_map]
    exact map_dotToUnderscore_eq_iff _ _
  refine ⟨key, ?_, ?_, ?_, by decide, by decide, by decide⟩
  · rw [key]
    exact sameUpToDots_iff_positions _ _
  · intro hfalse heq
    rw [key.mp heq] at hfalse
    exact absurd hfalse (by decide)
  · intro hfile
    rw [key, hfile]
    exact sameUpToDots_refl _

/-- C3: when every argument resolves and its document opens, `main` ends without a panic
and the output file holds, in argument order and with nothing between them, one block
per argument; the guard token of a block is derived from that argument's own path and
its two values are those of that argument's own map. -/
theorem main_concatenates (w : World) (arguments : List GoString)
    (h : ∀ a ∈ arguments, ∃ p xmlFile,
      resolveArg w a = some p ∧ w.osOpen p = Except.ok xmlFile) :
    (main w arguments).2 = none
      ∧ (main w arguments).1.writes = arguments.map (fun a =>
          blockText (deriveIdentifier (ownPath w a)) (ownMap w a).Version
            (ownMap w a).Orientation)
      ∧ (main w arguments).1.content = (arguments.map (fun a =>
          blockText (deriveIdentifier (ownPath w a)) (ownMap w a).Version
            (ownMap w a).Orientation)).flatten := by
  have hm := mainLoop_all_ok w arguments h { writes := [] }
  rw [← main_eq_mainLoop] at hm
  simp only [List.nil_append, buildBlock_eq_blockText] at hm
  rw [hm]
  exact ⟨rfl, rfl, rfl⟩

theorem main_concatenates_witness :
    (∀ a ∈ ["a.tmx".toList, "b.tmx".toList], ∃ p xmlFile,
        resolveArg sampleWorld a = some p ∧ sampleWorld.osOpen p = Except.ok xmlFile)
      ∧ (main sampleWorld ["a.tmx".toList, "b.tmx".toList]).2 = none
      ∧ (main sampleWorld ["a.tmx".toList, "b.tmx".toList]).1.content
        = ("#ifdef a_tmx_MAP\n#define a_tmx_Version 1.0\n#define a_tmx_Orientation orthogonal\n#endif"
          ++ "#ifdef b_tmx_MAP\n#define b_tmx_Version 1.2\n#define b_tmx_Orientation isometric\n#endif").toList := by
  have hyp : ∀ a ∈ ["a.tmx".toList, "b.tmx".toList], ∃ p xmlFile,
      resolveArg sampleWorld a = some p ∧ sampleWorld.osOpen p = Except.ok xmlFile := by
    intro a ha
    simp only [List.mem_cons, List.mem_singleton, List.not_mem_nil, or_false] at ha
    rcases ha with rfl | rfl
    · exact ⟨"/m/a.tmx".toList, _, by decide, rfl⟩
    · exact ⟨"/m/b.tmx".toList, _, by decide, rfl⟩
  have key := main_concatenates sampleWorld ["a.tmx".toList, "b.tmx".toList] hyp
  exact ⟨hyp, key.1, key.2.2.trans (by decide)⟩

/-- C4: an argument whose absolute-path resolution fails adds nothing to the output and
does not end the run: `main` on a list of arguments gives the same output file and the
same outcome as on the list without those arguments.  With the working directory gone,
`/m/good.tmx`, `bad.tmx`, `/m/good2.tmx` give the block of `good_tmx` and then the block
of `good2_tmx`, and nothing else. -/
theorem main_drops_unresolved (w : World) (arguments : List GoString) :
    main w arguments = main w (arguments.filter (fun a => !resolutionFails w a))
      ∧ resolutionFails lostDirWorld "bad.tmx".toList = true
      ∧ (main lostDirWorld
            ["/m/good.tmx".toList, "bad.tmx".toList, "/m/good2.tmx".toList]).1.writes
          = [blockText "good_tmx".toList "1.0".toList "orthogonal".toList,
             blockText "good2_tmx".toList "1.1".toList "hexagonal".toList]
      ∧ (main lostDirWorld
            ["/m/good.tmx".toList, "bad.tmx".toList, "/m/good2.tmx".toList]).2 = none := by
  refine ⟨?_, by decide, by decide, by decide⟩
  rw [main_eq_mainLoop, main_eq_mainLoop]
  exact mainLoop_filter w arguments _

/-- C5, the code at the failing input: `/m/missing.tmx` is absolute and cannot be opened,
`/m/a.tmx` can.  `OpenXML` panics on the first, so on the two arguments in this order
`main` panics in the first iteration and writes nothing, although `/m/a.tmx` alone gets
its block written. -/
theorem main_stops_at_failed_open :
    resolveArg sampleWorld "/m/missing.tmx".toList = some "/m/missing.tmx".toList
      ∧ sampleWorld.osOpen "/m/missing.tmx".toList
        = Except.error "open /m/missing.tmx: no such file or directory".toList
      ∧ OpenXML sampleWorld "/m/missing.tmx".toList
        = Except.error "open /m/missing.tmx: no such file or directory".toList
      ∧ (main sampleWorld ["/m/missing.tmx".toList, "/m/a.tmx".toList]).1.writes = []
      ∧ (main sampleWorld ["/m/missing.tmx".toList, "/m/a.tmx".toList]).2
        = some "open /m/missing.tmx: no such file or directory".toList
      ∧ (main sampleWorld ["/m/a.tmx".toList]).1.writes
        = [blockText "a_tmx".toList "1.0".toList "orthogonal".toList] := by
  refine ⟨by decide, rfl, rfl, by decide, by decide, by decide⟩

/-- C6 fails as stated: `/m/dir` opens and reading it fails, and `OpenXML` returns the
zero model with a nil error. -/
theorem OpenXML_read_error_dropped :
    sampleWorld.osOpen "/m/dir".toList
        = Except.ok { data := [], readErr := some "read /m/dir: is a directory".toList }
      ∧ (ioutilReadAll { data := [], readErr := some "read /m/dir: is a directory".toList }).2
        = some "read /m/dir: is a directory".toList
      ∧ OpenXML sampleWorld "/m/dir".toList = Except.ok (Tmxmap.zero, none) := by
  refine ⟨rfl, rfl, rfl⟩

/-- C6 amended: for a source that opens and cannot be read in full, `OpenXML` returns a
nil error, with the model the decoder makes of the bytes that were read. -/
theorem OpenXML_read_error_ignored (w : World) (arg : GoString) (xmlFile : SrcFile)
    (e : GoError) (ho : w.osOpen arg = Except.ok xmlFile)
    (hr : (ioutilReadAll xmlFile).2 = some e) :
    (ioutilReadAll xmlFile).2 ≠ none
      ∧ OpenXML w arg
        = Except.ok ((w.xmlUnmarshal (ioutilReadAll xmlFile).1 Tmxmap.zero).1, none) := by
  refine ⟨by rw [hr]; simp, ?_⟩
  rw [OpenXML_of_open_ok w arg xmlFile ho]
  rfl

theorem OpenXML_read_error_ignored_witness :
    sampleWorld.osOpen "/m/dir".toList
        = Except.ok { data := [], readErr := some "read /m/dir: is a directory".toList }
      ∧ OpenXML sampleWorld "/m/dir".toList
        = Except.ok ((sampleWorld.xmlUnmarshal [] Tmxmap.zero).1, none) :=
  ⟨rfl, (OpenXML_read_error_ignored sampleWorld "/m/dir".toList
    { data := [], readErr := some "read /m/dir: is a directory".toList }
    "read /m/dir: is a directory".toList rfl rfl).2⟩

/-- C9 fails as stated: `/m/cut.tmx` opens, the decoder reports a syntax error on its
content, `OpenXML` returns a nil error, and the model it returns carries the version
`1.0` and the orientation `orthogonal` the decoder had stored before the error; it is
not the zero model, and its block does not have empty values. -/
theorem OpenXML_keeps_partial_model :
    sampleWorld.osOpen "/m/cut.tmx".toList
        = Except.ok { data := cutDoc "1.0".toList "orthogonal".toList, readErr := none }
      ∧ (sampleWorld.xmlUnmarshal (cutDoc "1.0".toList "orthogonal".toList) Tmxmap.zero).2
        = some "XML syntax error on line 1: unexpected EOF".toList
      ∧ OpenXML sampleWorld "/m/cut.tmx".toList
        = Except.ok ({ Tmxmap.zero with Version := "1.0".toList,
                                         Orientation := "orthogonal".toList }, none)
      ∧ ({ Tmxmap.zero with Version := "1.0".toList,
                             Orientation := "orthogonal".toList } : Tmxmap) ≠ Tmxmap.zero
      ∧ (main sampleWorld ["/m/cut.tmx".toList]).1.content
        = "#ifdef cut_tmx_MAP\n#define cut_tmx_Version 1.0\n#define cut_tmx_Orientation orthogonal\n#endif".toList := by
  refine ⟨rfl, rfl, rfl, ?_, by decide⟩
  intro h
  have hv := congrArg Tmxmap.Version h
  exact absurd hv (by decide)

/-- C9 amended: for a source that opens and whose content the decoder reports an error
on, `OpenXML` returns a nil error together with the model as the decoder left it,
starting from the zero model; when the decoder stored nothing, that is the zero model,
and the block for it has empty `Version` and `Orientation` values. -/
theorem OpenXML_ignores_parse_error (w : World) (arg : GoString) (xmlFile : SrcFile)
    (e : GoError) (ho : w.osOpen arg = Except.ok xmlFile)
    (he : (w.xmlUnmarshal xmlFile.data Tmxmap.zero).2 = some e) :
    (w.xmlUnmarshal xmlFile.data Tmxmap.zero).2 ≠ none
      ∧ OpenXML w arg = Except.ok ((w.xmlUnmarshal xmlFile.data Tmxmap.zero).1, none)
      ∧ ((w.xmlUnmarshal xmlFile.data Tmxmap.zero).1 = Tmxmap.zero →
          OpenXML w arg = Except.ok (Tmxmap.zero, none)
            ∧ ∀ id, buildBlock (w.xmlUnmarshal xmlFile.data Tmxmap.zero).1 id
                = "#ifdef ".toList ++ id ++ "_MAP\n#define ".toList ++ id
                  ++ "_Version \n#define ".toList ++ id ++ "_Orientation \n#endif".toList) := by
  refine ⟨by rw [he]; simp, OpenXML_of_open_ok w arg xmlFile ho, ?_⟩
  intro hz
  refine ⟨by rw [OpenXML_of_open_ok w arg xmlFile ho, hz], ?_⟩
  intro id
  have hB : "_Version \n#define ".toList = "_Version ".toList ++ "\n#define ".toList := by
    decide
  have hC : "_Orientation \n#endif".toList = "_Orientation ".toList ++ "\n#endif".toList := by
    decide
  rw [hz, buildBlock_eq_blockText]
  simp only [blockText, Tmxmap.zero, hB, hC, List.append_nil, List.append_assoc]

theorem OpenXML_ignores_parse_error_witness :
    sampleWorld.osOpen "/m/junk.tmx".toList
        = Except.ok { data := "no markup here".toList, readErr := none }
      ∧ (sampleWorld.xmlUnmarshal "no markup here".toList Tmxmap.zero).2 = some "EOF".toList
      ∧ OpenXML sampleWorld "/m/junk.tmx".toList = Except.ok (Tmxmap.zero, none)
      ∧ buildBlock (sampleWorld.xmlUnmarshal "no markup here".toList Tmxmap.zero).1
          "junk_tmx".toList
        = "#ifdef junk_tmx_MAP\n#define junk_tmx_Version \n#define junk_tmx_Orientation \n#endif".toList := by
  have key := OpenXML_ignores_parse_error sampleWorld "/m/junk.tmx".toList
    { data := "no markup here".toList, readErr := none } "EOF".toList rfl rfl
  exact ⟨rfl, rfl, (key.2.2 rfl).1, ((key.2.2 rfl).2 "junk_tmx".toList).trans (by decide)⟩

/-- C10: every slice `main` writes is a block, and where the output holds block number
`i + 1` and a block after it, the text `#endif#ifdef ` stands there, its `#endif` ending
the first `i + 1` blocks and its `#ifdef ` starting the rest, so no line break separates
the two; the output starts with the `#ifdef ` of the first block, and its last
character is the `f` of `#endif`, not a line break. -/
theorem main_blocks_abut (w : World) (arguments : List GoString) (i : Nat)
    (h : i + 1 < (main w arguments).1.writes.length) :
    (∀ b ∈ (main w arguments).1.writes, ∃ m id, b = buildBlock m id)
      ∧ (∃ pre post,
          (main w arguments).1.content = pre ++ "#endif#ifdef ".toList ++ post
            ∧ pre ++ "#endif".toList = ((main w arguments).1.writes.take (i + 1)).flatten
            ∧ "#ifdef ".toList ++ post = ((main w arguments).1.writes.drop (i + 1)).flatten)
      ∧ "#ifdef ".toList <+: (main w arguments).1.content
      ∧ (main w arguments).1.content.getLast? = some 'f' := by
  have hb : ∀ b ∈ (main w arguments).1.writes, ∃ m id, b = buildBlock m id := by
    rw [main_eq_mainLoop]
    exact mainLoop_writes_blocks w arguments { writes := [] } (by simp)
  have hne : (main w arguments).1.writes ≠ [] := by
    intro h0
    rw [h0] at h
    exact absurd h (by simp)
  exact ⟨hb, flatten_junction _ hb i h, flatten_first _ hb hne, flatten_last _ hb hne⟩

theorem main_blocks_abut_witness :
    0 + 1 < (main sampleWorld ["a.tmx".toList, "b.tmx".toList]).1.writes.length
      ∧ (∃ pre post,
          (main sampleWorld ["a.tmx".toList, "b.tmx".toList]).1.content
              = pre ++ "#endif#ifdef ".toList ++ post
            ∧ pre ++ "#endif".toList
              = ((main sampleWorld ["a.tmx".toList, "b.tmx".toList]).1.writes.take (0 + 1)).flatten
            ∧ "#ifdef ".toList ++ post
              = ((main sampleWorld ["a.tmx".toList, "b.tmx".toList]).1.writes.drop (0 + 1)).flatten)
      ∧ (main sampleWorld ["a.tmx".toList, "b.tmx".toList]).1.content.getLast? = some 'f' := by
  have key := main_blocks_abut sampleWorld ["a.tmx".toList, "b.tmx".toList] 0 (by decide)
  exact ⟨by decide, key.2.1, key.2.2.2⟩

end Tmx2c
